import Mathlib

/-!
# Verification of the AI-AV-Agent analysis pipeline

Shallow embedding of the repository's root-cause-analysis pipeline
(normalize → correlate → rank → assemble) and of the two SQL artefacts that
are present in the repository (`events` table of the unified event storage
schema, and `calculate_meeting_efficiency` of `utilization_schema.sql`).

The pipeline implementation files named in the repository README
(`log_parser.py`, `event_correlator.py`, `rca_engine.py`, report assembly)
are not part of the source tree; the corresponding definitions below are
modelled from the specification and are marked as such in their doc comments.
Definitions taken from SQL that is present in the tree (`part_000`,
`utilization_schema.sql`) follow that source.
-/

namespace AVAgent

/-- Severity levels, from the `events` table CHECK constraint in `part_000`
(`severity IN ('debug','info','notice','warning','error','critical')`),
ordered `debug < info < notice < warning < error < critical`. -/
inductive Severity
  | debug | info | notice | warning | error | critical
deriving DecidableEq

/-- Source types, from the `events` table CHECK constraint in `part_000`
(`source_type IN ('av','network','compute','app','ticket','change')`). -/
inductive SourceType
  | av | network | compute | app | ticket | change
deriving DecidableEq

/-- `true` on `error` and `critical`: the severities the spec calls failures
("the first error/critical event in the cluster"). -/
def Severity.isFailure : Severity → Bool
  | .error => true
  | .critical => true
  | _ => false

/-- Modelled from the spec: the canonical `Event` produced by the missing
Normalizer (`log_parser.py` is declared in the README but absent from the
tree).  Fields restricted to those the analysis pipeline reads: timestamp in
seconds, source type, severity, stable `signal`, human message, optional
asset/room identity, and the mandatory raw source line. -/
structure Event where
  ts : Int
  source_type : SourceType
  severity : Severity
  signal : String
  message : String
  asset_id : Option String
  room : Option String
  raw_line : String
deriving DecidableEq

/-- Modelled from the spec: a `ParseError` records a line that could not be
normalized (recorded, not fatal). -/
structure ParseError where
  line_number : Nat
  raw_line : String
  reason : String
deriving DecidableEq

/-- Splits a character list at spaces (auxiliary for the modelled recognizer;
written structurally so concrete inputs evaluate in the kernel). -/
def splitWordsAux : List Char → List Char → List (List Char)
  | [], acc => [acc.reverse]
  | c :: cs, acc =>
    if c = ' ' then acc.reverse :: splitWordsAux cs []
    else splitWordsAux cs (c :: acc)

/-- Splits a line into its non-empty space-separated words. -/
def splitWords (s : String) : List String :=
  ((splitWordsAux s.toList []).filter (fun w => ¬ w.isEmpty)).map String.mk

/-- Parses a non-empty all-digit character list as a natural number. -/
def parseNatAux : List Char → Nat → Option Nat
  | [], acc => some acc
  | c :: cs, acc =>
    if '0' ≤ c ∧ c ≤ '9' then parseNatAux cs (acc * 10 + (c.toNat - 48))
    else none

/-- Parses a token as a decimal natural number, rejecting the empty token. -/
def parseNat (s : String) : Option Nat :=
  match s.toList with
  | [] => none
  | c :: cs => parseNatAux (c :: cs) 0

/-- Modelled from the spec: the single format recognizer standing in for the
missing priority-ordered recognizer sequence of `log_parser.py`.  A line is
well-formed iff it is non-empty and starts with a decimal timestamp token
followed by a signal token; a line whose timestamp cannot be parsed is
rejected as a `ParseError` and no timestamp is ever fabricated. -/
def recognizeLine (lineNo : Nat) (line : String) : Except ParseError Event :=
  match splitWords line with
  | tsTok :: sigTok :: rest =>
    match parseNat tsTok with
    | some t =>
        .ok { ts := (t : Int), source_type := .av, severity := .info,
              signal := sigTok, message := String.intercalate " " rest,
              asset_id := none, room := none, raw_line := line }
    | none => .error { line_number := lineNo, raw_line := line,
                       reason := "unparseable timestamp" }
  | _ => .error { line_number := lineNo, raw_line := line,
                  reason := "unrecognized format" }

/-- Tail of `normalize`, carrying the current line number. -/
def normalizeGo (n : Nat) : List String → List Event × List ParseError
  | [] => ([], [])
  | l :: ls =>
    let rest := normalizeGo (n + 1) ls
    match recognizeLine n l with
    | .ok e => (e :: rest.1, rest.2)
    | .error pe => (rest.1, pe :: rest.2)

/-- Modelled from the spec: `normalize(raw_lines) -> (events, parse_errors)`
of the missing `log_parser.py`.  Malformed lines are surfaced as parse
errors, never silently dropped, and never block later lines. -/
def normalize (lines : List String) : List Event × List ParseError :=
  normalizeGo 0 lines

/-- A known-failure pattern of the Pattern Catalog: id, name, ordered list of
symptom signals, typical root cause, recommended actions (spec §3, external
interface `{pattern_id, name, symptoms, typical_root_cause,
recommended_actions}`). -/
structure Pattern where
  pattern_id : String
  name : String
  symptoms : List String
  typical_root_cause : String
  recommended_actions : List String
deriving DecidableEq

/-- The operator-curated Pattern Catalog, loaded once per run, immutable. -/
structure Catalog where
  patterns : List Pattern
deriving DecidableEq

/-- Timestamp comparison used by the Correlator's stable sort. -/
def eventLE (a b : Event) : Bool := decide (a.ts ≤ b.ts)

/-- Modelled from the spec: the Correlator's stable timestamp sort of the
missing `event_correlator.py` ("sorted by timestamp (stable sort; ties broken
by original ingestion order)"). -/
def sortEvents (events : List Event) : List Event :=
  events.mergeSort eventLE

/-- Modelled from the spec: the Correlator's single linear sweep of the
missing `event_correlator.py` — a new cluster starts exactly when the gap
from the previous event to the current one exceeds the window. -/
def clusterSweep (w : Int) : List Event → List (List Event)
  | [] => []
  | [e] => [[e]]
  | e1 :: e2 :: rest =>
    if e2.ts - e1.ts > w then
      [e1] :: clusterSweep w (e2 :: rest)
    else
      match clusterSweep w (e2 :: rest) with
      | [] => [[e1]]
      | c :: cs => (e1 :: c) :: cs

/-- Modelled from the spec: two events share an asset or a room when the
respective identity is present on the first and equal on the second
("same asset_id/room"). -/
def sameAssetOrRoom (a b : Event) : Bool :=
  (a.asset_id.isSome && a.asset_id == b.asset_id) ||
  (a.room.isSome && a.room == b.room)

/-- `true` iff `sa` occurs in the list strictly before an occurrence of
`sb` (ordered symptom association inside one pattern). -/
def symptomPrecedes (sa sb : String) : List String → Bool
  | [] => false
  | x :: xs => (x == sa && xs.contains sb) || symptomPrecedes sa sb xs

/-- Modelled from the spec: `sa` is a known predecessor of `sb` in the
catalog's symptom associations — some pattern lists `sa` before `sb` in its
ordered symptom signals. -/
def knownPredecessor (cat : Catalog) (sa sb : String) : Bool :=
  cat.patterns.any (fun p => symptomPrecedes sa sb p.symptoms)

/-- Modelled from the spec: candidate-effect test of the missing
`event_correlator.py` — "event B is a candidate effect of event A iff
B.timestamp − A.timestamp ≤ a short cascade sub-window AND (same
asset_id/room, or A.signal appears as a known predecessor of B.signal in the
catalog's symptom associations)". -/
def cascadeCond (cat : Catalog) (subW : Int) (a b : Event) : Bool :=
  decide (b.ts - a.ts ≤ subW) &&
    (sameAssetOrRoom a b || knownPredecessor cat a.signal b.signal)

/-- The candidate-effect test at two cluster positions. -/
def edgeOK (cat : Catalog) (subW : Int) (evs : List Event) (i j : Nat) :
    Bool :=
  match evs[i]?, evs[j]? with
  | some a, some b => cascadeCond cat subW a b
  | _, _ => false

/-- Modelled from the spec: pairwise cascade-edge derivation within one
cluster; an edge `(i, j)` is directed from the earlier event at position `i`
to the later event at position `j > i` of the cluster's event list. -/
def cascadeEdges (cat : Catalog) (subW : Int) (evs : List Event) :
    List (Nat × Nat) :=
  (List.range evs.length).flatMap (fun i =>
    ((List.range evs.length).filter (fun j =>
      decide (i < j) && edgeOK cat subW evs i j)).map (fun j => (i, j)))

/-- A time-bounded cluster: its ordered event sequence plus the derived
cascade edges, as index pairs (cause position, effect position) into
`events` (spec §3). -/
structure Cluster where
  events : List Event
  edges : List (Nat × Nat)
deriving DecidableEq

/-- Modelled from the spec: `correlate(events, window_seconds, catalog)` of
the missing `event_correlator.py`, with the configurable cascade sub-window
passed explicitly — stable sort by timestamp, linear sweep into clusters,
pairwise cascade-edge derivation per cluster. -/
def correlate (events : List Event) (windowSeconds subWindow : Int)
    (cat : Catalog) : List Cluster :=
  (clusterSweep windowSeconds (sortEvents events)).map
    (fun evs => { events := evs, edges := cascadeEdges cat subWindow evs })

/-- Hypothesis classification: root cause vs. contributing factor vs.
symptom (spec §3). -/
inductive Classification
  | rootCause | contributingFactor | symptom
deriving DecidableEq

/-- Modelled from the spec: a root-cause `Hypothesis` of the missing
`rca_engine.py` — description, confidence, ordered evidence list, the
classification, the optional matched pattern id, plus the hypothesis's root
event position and first-occurrence timestamp used by demotion and
tie-breaking. -/
structure Hypothesis where
  description : String
  confidence : ℚ
  evidence : List String
  classification : Classification
  matched_pattern : Option String
  root_idx : Option Nat
  first_ts : Int
  actions : List String
deriving DecidableEq

/-- Clamps a rational into the unit interval `[0, 1]`. -/
def clampUnit (q : ℚ) : ℚ := min 1 (max 0 q)

/-- Lower-cases a string character by character (structural, so concrete
inputs evaluate in the kernel). -/
def lowerString (s : String) : String :=
  String.mk (s.toList.map Char.toLower)

/-- Case-insensitive string equality, as used by the spec's "all-of,
case-insensitive" pattern match. -/
def eqCI (a b : String) : Bool := lowerString a == lowerString b

/-- Earliest timestamp of a list of events (`0` on the empty list, which the
callers below never pass). -/
def firstTs : List Event → Int
  | [] => 0
  | e :: rest => rest.foldl (fun m x => min m x.ts) e.ts

/-- `true` iff the event `e` carries one of the pattern's symptom signals
(case-insensitive). -/
def matchesSymptomOf (p : Pattern) (e : Event) : Bool :=
  p.symptoms.any (fun s => eqCI e.signal s)

/-- The events of the cluster carrying one of the pattern's symptom
signals — the matching raw lines become the hypothesis's evidence. -/
def patternMatchedEvents (evs : List Event) (p : Pattern) : List Event :=
  evs.filter (matchesSymptomOf p)

/-- Modelled from the spec: direct pattern match — the cluster's signals
contain the pattern's symptom set, all-of, case-insensitive; a pattern with
no symptoms matches nothing (the "never hallucinate" guard: no hypothesis
without evidence). -/
def patternApplies (evs : List Event) (p : Pattern) : Bool :=
  !p.symptoms.isEmpty &&
    p.symptoms.all (fun s => evs.any (fun e => eqCI e.signal s))

/-- Modelled from the spec: evidence source (a) of the missing
`rca_engine.py` — a direct pattern match yields a draft hypothesis whose
text is the pattern's typical root cause, confidence baseline 0.85, and
whose evidence is the matching raw lines. -/
def patternDraft (evs : List Event) (p : Pattern) : Option Hypothesis :=
  if patternApplies evs p then
    let matched := patternMatchedEvents evs p
    some { description := p.typical_root_cause,
           confidence := 85 / 100,
           evidence := matched.map Event.raw_line,
           classification := .rootCause,
           matched_pattern := some p.pattern_id,
           root_idx := some (evs.findIdx (matchesSymptomOf p)),
           first_ts := firstTs matched,
           actions := p.recommended_actions }
  else none

/-- All pattern-match draft hypotheses of a cluster. -/
def patternDrafts (cl : Cluster) (cat : Catalog) : List Hypothesis :=
  cat.patterns.filterMap (patternDraft cl.events)

/-- Number of outgoing cascade edges of the event at position `i`. -/
def outDeg (edges : List (Nat × Nat)) (i : Nat) : Nat :=
  edges.countP (fun e => e.1 == i)

/-- Number of incoming cascade edges of the event at position `i`. -/
def inDeg (edges : List (Nat × Nat)) (i : Nat) : Nat :=
  edges.countP (fun e => e.2 == i)

/-- Modelled from the spec: severity weight of the cascade-root confidence
("confidence derived from edge count and severity"; the exact weights are
unspecified in the source material). -/
def severityBonus : Severity → ℚ
  | .critical => 3 / 20
  | .error => 1 / 10
  | .warning => 1 / 20
  | _ => 0

/-- Positions that have no incoming cascade edge but at least one outgoing
edge — the candidates of the cascade-root heuristic. -/
def rootCandidates (cl : Cluster) : List Nat :=
  (List.range cl.events.length).filter (fun i =>
    inDeg cl.edges i == 0 && decide (0 < outDeg cl.edges i))

/-- Picks the candidate with the most outgoing edges (first position on
ties, for determinism). -/
def pickRoot (cl : Cluster) : Option Nat :=
  (rootCandidates cl).foldl (fun best i =>
    match best with
    | none => some i
    | some b => if outDeg cl.edges b < outDeg cl.edges i then some i else some b)
    none

/-- The direct effects of the event at position `i` along cascade edges. -/
def effectsOf (cl : Cluster) (i : Nat) : List Event :=
  (cl.edges.filter (fun e => e.1 == i)).filterMap (fun e => cl.events[e.2]?)

/-- Modelled from the spec: evidence source (b) of the missing
`rca_engine.py` — the cascade-root heuristic proposes the event with no
incoming cascade edge but the most outgoing edges as root cause, with
confidence derived from edge count and severity (formula unspecified in the
source material; clamped into `[0, 1]`), evidence being the raw lines of the
root and its direct effects. -/
def cascadeDraft (cl : Cluster) : Option Hypothesis :=
  match pickRoot cl with
  | none => none
  | some i =>
    match cl.events[i]? with
    | none => none
    | some root =>
      some { description := "cascade root: " ++ root.signal,
             confidence :=
               clampUnit (1 / 2 + (outDeg cl.edges i : ℚ) / 10 +
                 severityBonus root.severity),
             evidence := root.raw_line :: (effectsOf cl i).map Event.raw_line,
             classification := .rootCause,
             matched_pattern := none,
             root_idx := some i,
             first_ts := root.ts,
             actions := [] }

/-- `true` on `change`/`ticket` events (the spec's `preceding_change`
sources). -/
def isChangeLike (e : Event) : Bool :=
  e.source_type == SourceType.change || e.source_type == SourceType.ticket

/-- The first error/critical event of the cluster. -/
def firstFailure (evs : List Event) : Option Event :=
  evs.find? (fun e => e.severity.isFailure)

/-- Modelled from the spec: the `change`/`ticket` events occurring before
the first error/critical event and within the cascade sub-window of that
first failure. -/
def precedingChanges (subW : Int) (evs : List Event) : List Event :=
  match firstFailure evs with
  | none => []
  | some f =>
    evs.filter (fun e =>
      isChangeLike e && decide (e.ts < f.ts) && decide (f.ts - e.ts ≤ subW))

/-- Modelled from the spec: evidence source (c) of the missing
`rca_engine.py` — a preceding change is raised to a hypothesis with moderate
confidence (0.55, inside the spec's 0.5–0.65 band); when corroborated by
source (a) or (b) it is reported as a contributing factor instead of a
competing root cause. -/
def changeDraft (cl : Cluster) (corroborated : Bool) (e : Event) : Hypothesis :=
  { description := "preceding change: " ++ e.message,
    confidence := 11 / 20,
    evidence := [e.raw_line],
    classification :=
      if corroborated then .contributingFactor else .rootCause,
    matched_pattern := none,
    root_idx := some (cl.events.findIdx (fun x => x == e)),
    first_ts := e.ts,
    actions := [] }

/-- `true` when evidence source (a) or (b) produced a draft — a preceding
change is then only a contributing factor, not a competing root cause. -/
def corroboratedBy (cl : Cluster) (cat : Catalog) : Bool :=
  !(patternDrafts cl cat).isEmpty || !((cascadeDraft cl).toList).isEmpty

/-- Modelled from the spec: the three evidence sources of the missing
`rca_engine.py`, each producing zero or more draft hypotheses. -/
def draftHypotheses (cl : Cluster) (cat : Catalog) (subW : Int) :
    List Hypothesis :=
  patternDrafts cl cat ++ (cascadeDraft cl).toList ++
    (precedingChanges subW cl.events).map
      (changeDraft cl (corroboratedBy cl cat))

/-- The ranking key: highest confidence first, then more evidence lines,
then earlier first-occurrence timestamp, then lexical order of the
description (lexicographic product order). -/
def hypKey (h : Hypothesis) : ℚ ×ₗ (ℤ ×ₗ (ℤ ×ₗ String)) :=
  toLex (-h.confidence,
    toLex (-(h.evidence.length : ℤ), toLex (h.first_ts, h.description)))

/-- Boolean ranking comparison fed to the stable sort. -/
def hypLE (a b : Hypothesis) : Bool := decide (hypKey a ≤ hypKey b)

/-- Modelled from the spec: a draft hypothesis is demoted to symptom if
another hypothesis's root event causally precedes it via a cascade edge. -/
def demoteIfPreceded (edges : List (Nat × Nat)) (hs : List Hypothesis)
    (h : Hypothesis) : Hypothesis :=
  if hs.any (fun h2 =>
      (match h2.root_idx, h.root_idx with
       | some i, some j => edges.contains (i, j)
       | _, _ => false) && !(h2 == h)) then
    { h with classification := .symptom }
  else h

/-- The demotion pass over all draft hypotheses. -/
def demoteSymptoms (edges : List (Nat × Nat)) (hs : List Hypothesis) :
    List Hypothesis :=
  hs.map (demoteIfPreceded edges hs)

/-- Turns a later root-cause classification into contributing factor. -/
def demoteLaterRoots (h : Hypothesis) : Hypothesis :=
  if h.classification = .rootCause then
    { h with classification := .contributingFactor }
  else h

/-- Modelled from the spec: after demotion at most one hypothesis per
cluster is marked root cause — the best-ranked root-cause hypothesis keeps
the mark, any later one becomes a contributing factor. -/
def markSingleRoot : List Hypothesis → List Hypothesis
  | [] => []
  | h :: t =>
    if h.classification = .rootCause then h :: t.map demoteLaterRoots
    else h :: markSingleRoot t

/-- Modelled from the spec: secondary (non-root-cause) hypotheses are kept,
capped at a configurable top-N. -/
def capSecondaries : Nat → List Hypothesis → List Hypothesis
  | _, [] => []
  | n, h :: t =>
    if h.classification = .rootCause then h :: capSecondaries n t
    else if n = 0 then capSecondaries 0 t
    else h :: capSecondaries (n - 1) t

/-- Modelled from the spec: the Ranker's configuration — correlation window,
cascade sub-window, the top-N cap on secondary hypotheses (default 5), and
the minimum confidence threshold (default 0.5). -/
structure RankConfig where
  windowSeconds : Int := 300
  subWindow : Int := 150
  topN : Nat := 5
  minConfidence : ℚ := 1 / 2
deriving DecidableEq

/-- Modelled from the spec: `rank(cluster, catalog) -> ordered
sequence<Hypothesis>` of the missing `rca_engine.py` — draft generation from
the three evidence sources, stable sort by the ranking key, the
symptom-demotion pass, the single-root-cause mark, the minimum-confidence
threshold, and the top-N cap on secondaries. -/
def rank (cl : Cluster) (cat : Catalog) (cfg : RankConfig) : List Hypothesis :=
  capSecondaries cfg.topN
    ((markSingleRoot (demoteSymptoms cl.edges
        ((draftHypotheses cl cat cfg.subWindow).mergeSort hypLE))).filter
      (fun h => decide (cfg.minConfidence ≤ h.confidence)))

/-- The four supported report renderings (spec §4.4). -/
inductive Format
  | structured | narrative | condensed | ticket
deriving DecidableEq

/-- A recommended action with owner and urgency (spec §3). -/
structure ActionItem where
  action : String
  owner : String
  urgency : String
deriving DecidableEq

/-- Modelled from the spec: the read-only `Report` projection of one
analysis result (spec §3), never mutated after assembly. -/
structure Report where
  summary : String
  window_start : Int
  window_end : Int
  affected_resources : List String
  hypotheses : List Hypothesis
  what_changed_before : List String
  recommended_actions : List ActionItem
  repeat_issue : Bool
  escalation : Option String
  data_gaps : List String
deriving DecidableEq

/-- One hypothesis line of a rendering. -/
def renderHypothesis (h : Hypothesis) : String :=
  h.description ++ " [confidence " ++ toString h.confidence ++ "; evidence: "
    ++ String.intercalate " | " h.evidence ++ "]"

/-- One action line of a rendering. -/
def renderAction (a : ActionItem) : String :=
  a.action ++ " (owner: " ++ a.owner ++ ", urgency: " ++ a.urgency ++ ")"

/-- Field-complete structured rendering. -/
def renderStructured (r : Report) : String :=
  "summary: " ++ r.summary
    ++ "\nwindow: " ++ toString r.window_start ++ ".." ++ toString r.window_end
    ++ "\naffected: " ++ String.intercalate ", " r.affected_resources
    ++ "\nhypotheses:\n"
    ++ String.intercalate "\n" (r.hypotheses.map renderHypothesis)
    ++ "\nwhat changed before: "
    ++ String.intercalate "; " r.what_changed_before
    ++ "\nactions:\n"
    ++ String.intercalate "\n" (r.recommended_actions.map renderAction)
    ++ "\nrepeat issue: " ++ (if r.repeat_issue then "yes" else "no")
    ++ "\nescalation: " ++ (match r.escalation with
                            | some e => e
                            | none => "(none)")
    ++ "\ndata gaps: " ++ String.intercalate "; " r.data_gaps

/-- Headed-prose rendering. -/
def renderNarrative (r : Report) : String :=
  "Incident analysis. " ++ r.summary ++ " Ranked explanations: "
    ++ String.intercalate " Next, " (r.hypotheses.map renderHypothesis)
    ++ " Recommended: "
    ++ String.intercalate "; " (r.recommended_actions.map renderAction) ++ "."

/-- Single-paragraph rendering for notifications. -/
def renderCondensed (r : Report) : String :=
  r.summary ++ " Top: "
    ++ (match r.hypotheses with
        | [] => "(no hypothesis)"
        | h :: _ => renderHypothesis h)

/-- Action-first, owner/urgency rendering for ticket updates. -/
def renderTicket (r : Report) : String :=
  "ACTIONS:\n"
    ++ String.intercalate "\n" (r.recommended_actions.map renderAction)
    ++ "\nCONTEXT: " ++ r.summary
    ++ "\nHYPOTHESES:\n"
    ++ String.intercalate "\n" (r.hypotheses.map renderHypothesis)

/-- Modelled from the spec: the pure rendering of one Report into one of the
four supported formats — same underlying Report data, only rendering
differs. -/
def render (r : Report) : Format → String
  | .structured => renderStructured r
  | .narrative => renderNarrative r
  | .condensed => renderCondensed r
  | .ticket => renderTicket r

/-- Modelled from the spec: the Report Assembler holds no state that
rendering reads — only a bookkeeping call counter, so that statelessness is
an explicit theorem rather than a convention. -/
structure AssemblerState where
  calls : Nat
deriving DecidableEq

/-- Modelled from the spec: `assemble` as a projection of the Ranker's
output — it renders the given Report in the given format and touches no
state except the bookkeeping counter. -/
def assemble (st : AssemblerState) (r : Report) (f : Format) :
    String × AssemblerState :=
  (render r f, { calls := st.calls + 1 })

/-- One day in seconds (`INTERVAL '1 day'` of the `valid_timestamp` CHECK in
`part_000`). -/
def oneDaySeconds : Int := 86400

/-- Ten years in seconds (`INTERVAL '10 years'` of the `valid_ingestion`
CHECK in `part_000`; calendar years approximated as 365 days). -/
def tenYearsSeconds : Int := 3650 * 86400

/-- The `source_type` CHECK list of the `events` table in `part_000`. -/
def sourceTypeNames : List String :=
  ["av", "network", "compute", "app", "ticket", "change"]

/-- The `severity` CHECK list of the `events` table in `part_000`. -/
def severityNames : List String :=
  ["debug", "info", "notice", "warning", "error", "critical"]

/-- The `category` CHECK list of the `events` table in `part_000`. -/
def categoryNames : List String :=
  ["connectivity", "power", "audio", "video", "control", "auth",
   "performance", "config", "hardware", "user_action", "vendor_service"]

/-- A row offered for insertion into the `events` table of `part_000`.
Nullability is modelled with `Option`; the constrained columns are kept,
the unconstrained nullable columns (location, asset identity, correlation
ids, metadata, raw provenance details) are omitted. -/
structure EventRow where
  ts : Option Int
  source_type : Option String
  source_vendor : Option String
  source_system : Option String
  severity : Option String
  category : Option String
  signal : Option String
  message : Option String
  raw_line : Option String
  parser_version : Option String
deriving DecidableEq

/-- The `events` table's insert-time admission check from `part_000`: the
NOT NULL columns, the three enum CHECKs, `valid_timestamp`
(`ts <= NOW() + INTERVAL '1 day'`) and `valid_ingestion`
(`ingested_at >= ts - INTERVAL '10 years'`), with `ingested_at` defaulted to
the insertion time `now`. -/
def insertOK (now : Int) (r : EventRow) : Bool :=
  match r.ts, r.source_type, r.source_vendor, r.source_system, r.severity,
      r.category, r.signal, r.message, r.raw_line, r.parser_version with
  | some t, some st, some _, some _, some sev, some cat, some _, some _,
      some _, some _ =>
    sourceTypeNames.contains st && severityNames.contains sev &&
      categoryNames.contains cat && decide (t ≤ now + oneDaySeconds) &&
      decide (t - tenYearsSeconds ≤ now)
  | _, _, _, _, _, _, _, _, _, _ => false

/-- SQL `ROUND(x, 2)`: rounding half away from zero at two decimal places,
as Postgres `ROUND` on `DECIMAL` does. -/
def sqlRound2 (q : ℚ) : ℚ :=
  if 0 ≤ q then (⌊q * 100 + 1 / 2⌋ : ℚ) / 100
  else -((⌊-(q * 100) + 1 / 2⌋ : ℚ) / 100)

/-- `calculate_meeting_efficiency(p_actual_duration, p_scheduled_duration)`
from `utilization_schema.sql` lines 445–457: NULL when the scheduled
duration is NULL or 0 (guarding the division), NULL when the actual duration
is NULL (SQL NULL propagation through the arithmetic), otherwise
`ROUND(p_actual::DECIMAL / p_scheduled * 100, 2)`. -/
def calculate_meeting_efficiency (p_actual p_scheduled : Option Int) :
    Option ℚ :=
  match p_scheduled with
  | none => none
  | some s =>
    if s = 0 then none
    else
      match p_actual with
      | none => none
      | some a => some (sqlRound2 ((a : ℚ) / (s : ℚ) * 100))

/-! ## Theorems -/

/-- C8: `assemble` is a pure, stateless projection of the Ranker's output —
calling it twice with the same Report and the same format yields
byte-identical output (first conjunct), and the output never depends on the
assembler state at all (second conjunct). -/
theorem assemble_idempotent_stateless (st st' : AssemblerState) (r : Report)
    (f : Format) :
    (assemble st r f).1 = (assemble (assemble st r f).2 r f).1
  ∧ (assemble st r f).1 = (assemble st' r f).1 :=
  ⟨rfl, rfl⟩

/-- C9: an `events` row passes the insert-time check only if its timestamp
is at most one day after the insertion time (the `valid_timestamp` CHECK),
and a row whose timestamp exceeds that bound is rejected. -/
theorem events_valid_timestamp (now : Int) (r : EventRow) :
    (insertOK now r = true → ∃ t, r.ts = some t ∧ t ≤ now + oneDaySeconds)
  ∧ (∀ t, r.ts = some t → now + oneDaySeconds < t → insertOK now r = false) := by
  have aux : insertOK now r = true → ∃ t, r.ts = some t ∧ t ≤ now + oneDaySeconds := by
    intro h
    unfold insertOK at h
    split at h
    · rename_i t st sv ss sev cat sig msg rl pv hts hst hsv hss hsev hcat hsig hmsg hrl hpv
      simp only [Bool.and_eq_true, decide_eq_true_eq] at h
      exact ⟨t, hts, h.1.2⟩
    · simp at h
  refine ⟨aux, ?_⟩
  intro t hts hgt
  cases hok : insertOK now r with
  | false => rfl
  | true =>
    obtain ⟨t', ht', hle⟩ := aux hok
    rw [hts] at ht'
    cases ht'
    omega

/-- A concrete row accepted by the insert check, and a concrete row rejected
solely for a timestamp more than one day in the future. -/
def demoRowAt (t : Int) : EventRow :=
  { ts := some t, source_type := some "av", source_vendor := some "vendor",
    source_system := some "system", severity := some "error",
    category := some "power", signal := some "poe_power_denied",
    message := some "PoE power denied", raw_line := some "PoE power denied",
    parser_version := some "1.0" }

theorem events_valid_timestamp_witness :
    (∃ t, (demoRowAt 100).ts = some t ∧ t ≤ 0 + oneDaySeconds)
  ∧ insertOK 0 (demoRowAt 86401) = false :=
  ⟨(events_valid_timestamp 0 (demoRowAt 100)).1 (by decide),
   (events_valid_timestamp 0 (demoRowAt 86401)).2 86401 rfl (by decide)⟩

/-- C10: `calculate_meeting_efficiency` returns NULL whenever the scheduled
duration is NULL or 0; otherwise (both arguments present, divisor non-zero)
it returns `ROUND(actual/scheduled * 100, 2)`; and any produced value comes
from a division by a non-zero scheduled duration. -/
theorem calculate_meeting_efficiency_null_guard (p_actual p_scheduled : Option Int) :
    ((p_scheduled = none ∨ p_scheduled = some 0) →
      calculate_meeting_efficiency p_actual p_scheduled = none)
  ∧ (∀ a s : Int, s ≠ 0 →
      calculate_meeting_efficiency (some a) (some s)
        = some (sqlRound2 ((a : ℚ) / (s : ℚ) * 100)))
  ∧ (∀ q : ℚ, calculate_meeting_efficiency p_actual p_scheduled = some q →
      ∃ a s : Int, p_actual = some a ∧ p_scheduled = some s ∧ s ≠ 0 ∧
        q = sqlRound2 ((a : ℚ) / (s : ℚ) * 100)) := by
  refine ⟨?_, ?_, ?_⟩
  · rintro (rfl | rfl) <;> simp [calculate_meeting_efficiency]
  · intro a s hs
    simp [calculate_meeting_efficiency, hs]
  · intro q hq
    rcases p_scheduled with _ | s
    · simp [calculate_meeting_efficiency] at hq
    · rcases eq_or_ne s 0 with rfl | h0
      · simp [calculate_meeting_efficiency] at hq
      · rcases p_actual with _ | a
        · simp [calculate_meeting_efficiency, h0] at hq
        · simp only [calculate_meeting_efficiency, if_neg h0,
            Option.some.injEq] at hq
          exact ⟨a, s, rfl, rfl, h0, hq.symm⟩

theorem calculate_meeting_efficiency_null_guard_witness :
    calculate_meeting_efficiency (some 30) (some 60)
      = some (sqlRound2 ((30 : ℚ) / (60 : ℚ) * 100))
  ∧ calculate_meeting_efficiency (some 5) (some 0) = none :=
  ⟨(calculate_meeting_efficiency_null_guard (some 30) (some 60)).2.1 30 60
      (by decide),
   (calculate_meeting_efficiency_null_guard (some 5) (some 0)).1 (Or.inr rfl)⟩

/-- A successfully recognized event carries the input line verbatim as its
raw line. -/
theorem recognizeLine_ok_raw (n : Nat) (l : String) (e : Event)
    (h : recognizeLine n l = .ok e) : e.raw_line = l := by
  unfold recognizeLine at h
  split at h
  · split at h
    · injection h with h'
      subst h'
      rfl
    · exact Except.noConfusion h
  · exact Except.noConfusion h

/-- A parse error carries the offending input line verbatim and its line
number. -/
theorem recognizeLine_error_raw (n : Nat) (l : String) (pe : ParseError)
    (h : recognizeLine n l = .error pe) :
    pe.raw_line = l ∧ pe.line_number = n := by
  unfold recognizeLine at h
  split at h
  · split at h
    · exact Except.noConfusion h
    · injection h with h'
      subst h'
      exact ⟨rfl, rfl⟩
  · injection h with h'
    subst h'
    exact ⟨rfl, rfl⟩

/-- The empty line is never recognized as an event. -/
theorem recognizeLine_ok_ne_empty (n : Nat) (l : String) (e : Event)
    (h : recognizeLine n l = .ok e) : l ≠ "" := by
  rintro rfl
  have hred : recognizeLine n "" =
      Except.error { line_number := n, raw_line := "",
                     reason := "unrecognized format" } := rfl
  rw [hred] at h
  exact Except.noConfusion h

/-- Every input line is accounted for: one event or one parse error. -/
theorem normalizeGo_length (n : Nat) (lines : List String) :
    (normalizeGo n lines).1.length + (normalizeGo n lines).2.length
      = lines.length := by
  induction lines generalizing n with
  | nil => rfl
  | cons l ls ih =>
    have hrest := ih (n + 1)
    cases hl : recognizeLine n l with
    | ok e => simp [normalizeGo, hl]; omega
    | error pe => simp [normalizeGo, hl]; omega

/-- Per-line surfacing: the event of a well-formed line is in the events
output, the parse error of a malformed line is in the errors output, no
matter what the other lines look like. -/
theorem normalizeGo_mem (n : Nat) (lines : List String) :
    ∀ i li, lines[i]? = some li →
      (∀ e, recognizeLine (n + i) li = .ok e → e ∈ (normalizeGo n lines).1)
    ∧ (∀ pe, recognizeLine (n + i) li = .error pe →
        pe ∈ (normalizeGo n lines).2) := by
  induction lines generalizing n with
  | nil => intro i li hli; simp at hli
  | cons l ls ih =>
    intro i li hli
    cases i with
    | zero =>
      simp only [List.getElem?_cons_zero, Option.some.injEq] at hli
      constructor
      · intro e he
        simp only [Nat.add_zero] at he
        simp [normalizeGo, hli, he]
      · intro pe hpe
        simp only [Nat.add_zero] at hpe
        simp [normalizeGo, hli, hpe]
    | succ j =>
      simp only [List.getElem?_cons_succ] at hli
      have hrec := ih (n + 1) j li hli
      have hshift : n + (j + 1) = (n + 1) + j := by omega
      constructor
      · intro e he
        rw [hshift] at he
        have hm := hrec.1 e he
        cases hl : recognizeLine n l with
        | ok e' => simp [normalizeGo, hl]; right; exact hm
        | error pe' => simp [normalizeGo, hl]; exact hm
      · intro pe hpe
        rw [hshift] at hpe
        have hm := hrec.2 pe hpe
        cases hl : recognizeLine n l with
        | ok e' => simp [normalizeGo, hl]; exact hm
        | error pe' => simp [normalizeGo, hl]; right; exact hm

/-- Every produced event comes from recognizing exactly one input line. -/
theorem normalizeGo_events_from (n : Nat) (lines : List String) :
    ∀ e ∈ (normalizeGo n lines).1, ∃ i li, lines[i]? = some li ∧
      recognizeLine (n + i) li = .ok e := by
  induction lines generalizing n with
  | nil => simp [normalizeGo]
  | cons l ls ih =>
    intro e he
    cases hl : recognizeLine n l with
    | ok e' =>
      rw [show (normalizeGo n (l :: ls)) =
        (e' :: (normalizeGo (n + 1) ls).1, (normalizeGo (n + 1) ls).2) by
          simp [normalizeGo, hl]] at he
      rcases List.mem_cons.mp he with rfl | he'
      · exact ⟨0, l, by simp, by simpa using hl⟩
      · obtain ⟨i, li, hli, hrec⟩ := ih (n + 1) e he'
        exact ⟨i + 1, li, by simpa using hli,
          by rw [show n + (i + 1) = (n + 1) + i by omega]; exact hrec⟩
    | error pe =>
      rw [show (normalizeGo n (l :: ls)) =
        ((normalizeGo (n + 1) ls).1, pe :: (normalizeGo (n + 1) ls).2) by
          simp [normalizeGo, hl]] at he
      obtain ⟨i, li, hli, hrec⟩ := ih (n + 1) e he
      exact ⟨i + 1, li, by simpa using hli,
        by rw [show n + (i + 1) = (n + 1) + i by omega]; exact hrec⟩

/-- Every produced parse error comes from failing on exactly one input
line. -/
theorem normalizeGo_errors_from (n : Nat) (lines : List String) :
    ∀ pe ∈ (normalizeGo n lines).2, ∃ i li, lines[i]? = some li ∧
      recognizeLine (n + i) li = .error pe := by
  induction lines generalizing n with
  | nil => simp [normalizeGo]
  | cons l ls ih =>
    intro pe hpe
    cases hl : recognizeLine n l with
    | ok e' =>
      rw [show (normalizeGo n (l :: ls)) =
        (e' :: (normalizeGo (n + 1) ls).1, (normalizeGo (n + 1) ls).2) by
          simp [normalizeGo, hl]] at hpe
      obtain ⟨i, li, hli, hrec⟩ := ih (n + 1) pe hpe
      exact ⟨i + 1, li, by simpa using hli,
        by rw [show n + (i + 1) = (n + 1) + i by omega]; exact hrec⟩
    | error pe' =>
      rw [show (normalizeGo n (l :: ls)) =
        ((normalizeGo (n + 1) ls).1, pe' :: (normalizeGo (n + 1) ls).2) by
          simp [normalizeGo, hl]] at hpe
      rcases List.mem_cons.mp hpe with rfl | hpe'
      · exact ⟨0, l, by simp, by simpa using hl⟩
      · obtain ⟨i, li, hli, hrec⟩ := ih (n + 1) pe hpe'
        exact ⟨i + 1, li, by simpa using hli,
          by rw [show n + (i + 1) = (n + 1) + i by omega]; exact hrec⟩

/-- C4: `normalize` surfaces each malformed line as a `ParseError` carrying
the offending line verbatim, excludes it from the returned events (every
event comes from recognizing one well-formed line, so no timestamp is
fabricated), still processes every other well-formed line, and accounts for
every input line — none is silently dropped. -/
theorem normalize_surfaces_parse_errors (lines : List String) :
    (normalize lines).1.length + (normalize lines).2.length = lines.length
  ∧ (∀ i li, lines[i]? = some li →
      (∀ pe, recognizeLine i li = .error pe →
        pe ∈ (normalize lines).2 ∧ pe.raw_line = li)
    ∧ (∀ e, recognizeLine i li = .ok e → e ∈ (normalize lines).1))
  ∧ (∀ e ∈ (normalize lines).1, ∃ i li, lines[i]? = some li ∧
      recognizeLine i li = .ok e)
  ∧ (∀ pe ∈ (normalize lines).2, ∃ i li, lines[i]? = some li ∧
      recognizeLine i li = .error pe) := by
  refine ⟨normalizeGo_length 0 lines, ?_, ?_, ?_⟩
  · intro i li hli
    have h := normalizeGo_mem 0 lines i li hli
    rw [Nat.zero_add] at h
    exact ⟨fun pe hpe => ⟨h.2 pe hpe, (recognizeLine_error_raw i li pe hpe).1⟩,
      fun e he => h.1 e he⟩
  · intro e he
    obtain ⟨i, li, hli, hrec⟩ := normalizeGo_events_from 0 lines e he
    rw [Nat.zero_add] at hrec
    exact ⟨i, li, hli, hrec⟩
  · intro pe hpe
    obtain ⟨i, li, hli, hrec⟩ := normalizeGo_errors_from 0 lines pe hpe
    rw [Nat.zero_add] at hrec
    exact ⟨i, li, hli, hrec⟩

/-- Demo input lines: one well-formed, one with an unparseable timestamp,
one well-formed after the malformed one. -/
def demoLines : List String :=
  ["100 dhcp_pool_98 pool almost full",
   "oops no timestamp here",
   "182 dhcp_timeout no ip address"]

theorem normalize_surfaces_parse_errors_witness :
    ({ line_number := 1, raw_line := "oops no timestamp here",
       reason := "unparseable timestamp" } : ParseError)
        ∈ (normalize demoLines).2
  ∧ ({ line_number := 1, raw_line := "oops no timestamp here",
       reason := "unparseable timestamp" } : ParseError).raw_line
        = "oops no timestamp here" :=
  ((normalize_surfaces_parse_errors demoLines).2.1 1 "oops no timestamp here"
    (by decide)).1
    { line_number := 1, raw_line := "oops no timestamp here",
      reason := "unparseable timestamp" } (by rfl)

/-- C5 (amended): every Event the Normalizer creates carries a non-empty
raw source line that is verbatim one single input line (never a summary of
several lines), and the persisted `events` table requires `raw_line` to be
present (NOT NULL) on insert — though the SQL CHECK itself does not reject
an empty string. -/
theorem event_raw_line_nonempty (lines : List String) (now : Int)
    (r : EventRow) :
    (∀ e ∈ (normalize lines).1, e.raw_line ≠ "" ∧ e.raw_line ∈ lines)
  ∧ (insertOK now r = true → r.raw_line ≠ none) := by
  constructor
  · intro e he
    obtain ⟨i, li, hli, hrec⟩ := normalizeGo_events_from 0 lines e he
    rw [Nat.zero_add] at hrec
    have hraw := recognizeLine_ok_raw i li e hrec
    have hne := recognizeLine_ok_ne_empty i li e hrec
    rw [hraw]
    exact ⟨hne, List.getElem?_mem hli⟩
  · intro h
    unfold insertOK at h
    split at h
    · rename_i t st sv ss sev cat sig msg rl pv hts hst hsv hss hsev hcat
        hsig hmsg hrl hpv
      rw [hrl]
      simp
    · simp at h

/-- C5 counterexample row: all NOT NULL columns present and all CHECK
constraints satisfied, but the raw line is the empty string. -/
def emptyRawRow : EventRow :=
  { ts := some 0, source_type := some "av", source_vendor := some "vendor",
    source_system := some "system", severity := some "info",
    category := some "power", signal := some "sig",
    message := some "message", raw_line := some "",
    parser_version := some "1.0" }

/-- C5 counterexample: the persisted `events` table does not preserve
non-emptiness of the raw line — a row whose `raw_line` is the empty string
passes the table's insert-time checks, so an Event with an empty raw line
can exist in the store. -/
theorem events_table_admits_empty_raw_line :
    emptyRawRow.raw_line = some "" ∧ insertOK 0 emptyRawRow = true :=
  ⟨rfl, by decide⟩

theorem event_raw_line_nonempty_witness :
    ({ ts := (100 : Int), source_type := .av, severity := .info,
       signal := "dhcp_pool_98", message := "pool almost full",
       asset_id := none, room := none,
       raw_line := "100 dhcp_pool_98 pool almost full" } : Event).raw_line ≠ ""
  ∧ ({ ts := (100 : Int), source_type := .av, severity := .info,
       signal := "dhcp_pool_98", message := "pool almost full",
       asset_id := none, room := none,
       raw_line := "100 dhcp_pool_98 pool almost full" } : Event).raw_line
        ∈ demoLines :=
  (event_raw_line_nonempty demoLines 0 emptyRawRow).1
    { ts := (100 : Int), source_type := .av, severity := .info,
      signal := "dhcp_pool_98", message := "pool almost full",
      asset_id := none, room := none,
      raw_line := "100 dhcp_pool_98 pool almost full" } (by decide)

/-- The sweep of a non-empty list is non-empty and its first cluster starts
with the first event. -/
theorem clusterSweep_cons (w : Int) (e : Event) (rest : List Event) :
    ∃ c cs, clusterSweep w (e :: rest) = (e :: c) :: cs := by
  induction rest generalizing e with
  | nil => exact ⟨[], [], rfl⟩
  | cons e2 rest ih =>
    by_cases h : e2.ts - e.ts > w
    · exact ⟨[], clusterSweep w (e2 :: rest), by simp [clusterSweep, h]⟩
    · obtain ⟨c, cs, hcs⟩ := ih e2
      refine ⟨e2 :: c, cs, ?_⟩
      simp only [clusterSweep, if_neg h, hcs]

/-- The sweep partitions its input: flattening the clusters gives back the
input list. -/
theorem clusterSweep_flatten (w : Int) (l : List Event) :
    (clusterSweep w l).flatten = l := by
  induction l with
  | nil => rfl
  | cons e1 tl ih =>
    cases tl with
    | nil => rfl
    | cons e2 rest =>
      by_cases h : e2.ts - e1.ts > w
      · simp only [clusterSweep, if_pos h, List.flatten_cons]
        simpa using ih
      · obtain ⟨c, cs, hcs⟩ := clusterSweep_cons w e2 rest
        rw [hcs] at ih
        simp only [List.flatten_cons, List.cons_append] at ih
        simp only [clusterSweep, if_neg h, hcs, List.flatten_cons,
          List.cons_append, List.cons.injEq, true_and]
        simpa using ih

/-- Every cluster the sweep produces is non-empty. -/
theorem clusterSweep_mem_ne_nil (w : Int) (l : List Event) :
    ∀ c ∈ clusterSweep w l, c ≠ [] := by
  induction l with
  | nil => simp [clusterSweep]
  | cons e1 tl ih =>
    cases tl with
    | nil => intro c hc; simp [clusterSweep] at hc; simp [hc]
    | cons e2 rest =>
      intro c hc
      by_cases h : e2.ts - e1.ts > w
      · rw [clusterSweep, if_pos h] at hc
        rcases List.mem_cons.mp hc with rfl | hc'
        · simp
        · exact ih c hc'
      · obtain ⟨c0, cs, hcs⟩ := clusterSweep_cons w e2 rest
        rw [clusterSweep, if_neg h, hcs] at hc
        rcases List.mem_cons.mp hc with rfl | hc'
        · simp
        · exact ih c (by rw [hcs]; exact List.mem_cons_of_mem _ hc')

/-- Every cluster the sweep produces is a sublist of the input. -/
theorem clusterSweep_sublist (w : Int) (l : List Event) :
    ∀ c ∈ clusterSweep w l, List.Sublist c l := by
  intro c hc
  have := List.sublist_flatten_of_mem hc
  rwa [clusterSweep_flatten] at this

/-- Inside each cluster, consecutive events are at most the window apart. -/
theorem clusterSweep_chain (w : Int) (l : List Event) :
    ∀ c ∈ clusterSweep w l, c.Chain' (fun a b => b.ts - a.ts ≤ w) := by
  induction l with
  | nil => simp [clusterSweep]
  | cons e1 tl ih =>
    cases tl with
    | nil => intro c hc; simp [clusterSweep] at hc; simp [hc]
    | cons e2 rest =>
      intro c hc
      by_cases h : e2.ts - e1.ts > w
      · rw [clusterSweep, if_pos h] at hc
        rcases List.mem_cons.mp hc with rfl | hc'
        · simp
        · exact ih c hc'
      · obtain ⟨c0, cs, hcs⟩ := clusterSweep_cons w e2 rest
        rw [clusterSweep, if_neg h, hcs] at hc
        rcases List.mem_cons.mp hc with rfl | hc'
        · have hch := ih (e2 :: c0) (by rw [hcs]; exact List.mem_cons_self _ _)
          exact List.chain'_cons.mpr ⟨by omega, hch⟩
        · exact ih c (by rw [hcs]; exact List.mem_cons_of_mem _ hc')

/-- Between consecutive clusters, the gap from the last event of the first
to the first event of the second exceeds the window. -/
theorem clusterSweep_boundaries (w : Int) (l : List Event) :
    (clusterSweep w l).Chain' (fun c d =>
      ∀ a ∈ c.getLast?, ∀ b ∈ d.head?, w < b.ts - a.ts) := by
  induction l with
  | nil => simp [clusterSweep]
  | cons e1 tl ih =>
    cases tl with
    | nil => simp [clusterSweep]
    | cons e2 rest =>
      obtain ⟨c0, cs, hcs⟩ := clusterSweep_cons w e2 rest
      rw [hcs] at ih
      by_cases h : e2.ts - e1.ts > w
      · rw [clusterSweep, if_pos h, hcs]
        refine List.chain'_cons.mpr ⟨?_, ih⟩
        intro a ha b hb
        simp only [List.getLast?_singleton, Option.mem_def,
          Option.some.injEq] at ha
        simp only [List.head?_cons, Option.mem_def, Option.some.injEq] at hb
        subst ha; subst hb
        omega
      · rw [clusterSweep, if_neg h, hcs]
        cases cs with
        | nil => simp
        | cons d ds =>
          refine List.chain'_cons.mpr ⟨?_, (List.chain'_cons.mp ih).2⟩
          intro a ha b hb
          refine (List.chain'_cons.mp ih).1 a ?_ b hb
          rwa [List.getLast?_cons_cons] at ha

/-- When the input is sorted by timestamp, the clusters' start events appear
in non-decreasing timestamp order. -/
theorem clusterSweep_heads_sorted (w : Int) (l : List Event)
    (hl : l.Pairwise (fun a b => a.ts ≤ b.ts)) :
    (clusterSweep w l).Chain' (fun c d =>
      ∀ a ∈ c.head?, ∀ b ∈ d.head?, a.ts ≤ b.ts) := by
  induction l with
  | nil => simp [clusterSweep]
  | cons e1 tl ih =>
    cases tl with
    | nil => simp [clusterSweep]
    | cons e2 rest =>
      obtain ⟨c0, cs, hcs⟩ := clusterSweep_cons w e2 rest
      have ih' := ih hl.tail
      rw [hcs] at ih'
      have h12 : e1.ts ≤ e2.ts :=
        List.rel_of_pairwise_cons hl (List.mem_cons_self _ _)
      by_cases h : e2.ts - e1.ts > w
      · rw [clusterSweep, if_pos h, hcs]
        refine List.chain'_cons.mpr ⟨?_, ih'⟩
        intro a ha b hb
        simp only [List.head?_cons, Option.mem_def, Option.some.injEq] at ha hb
        subst ha; subst hb
        exact h12
      · rw [clusterSweep, if_neg h, hcs]
        cases cs with
        | nil => simp
        | cons d ds =>
          refine List.chain'_cons.mpr ⟨?_, (List.chain'_cons.mp ih').2⟩
          intro a ha b hb
          simp only [List.head?_cons, Option.mem_def, Option.some.injEq] at ha
          subst ha
          have := (List.chain'_cons.mp ih').1 e2 (by simp) b hb
          omega

/-- The sort comparison is transitive. -/
theorem eventLE_trans : ∀ a b c : Event,
    eventLE a b → eventLE b c → eventLE a c := by
  intro a b c hab hbc
  simp only [eventLE, decide_eq_true_eq] at *
  omega

/-- The sort comparison is total. -/
theorem eventLE_total : ∀ a b : Event, eventLE a b || eventLE b a := by
  intro a b
  simp only [eventLE, Bool.or_eq_true, decide_eq_true_eq]
  omega

/-- The sorted event list is pairwise non-decreasing in timestamp. -/
theorem sortEvents_pairwise (events : List Event) :
    (sortEvents events).Pairwise (fun a b => a.ts ≤ b.ts) := by
  have h : (events.mergeSort eventLE).Pairwise (fun a b => eventLE a b) :=
    List.sorted_mergeSort eventLE_trans eventLE_total events
  exact h.imp (fun hab => by
    simpa only [eventLE, decide_eq_true_eq] using hab)

/-- The clusters produced by `correlate`, projected to their event lists,
are exactly the sweep of the sorted events. -/
theorem correlate_map_events (events : List Event) (w subW : Int)
    (cat : Catalog) :
    (correlate events w subW cat).map Cluster.events
      = clusterSweep w (sortEvents events) := by
  simp only [correlate, List.map_map]
  exact List.map_id' _

/-- C1: `correlate` first sorts the events by timestamp with a stable sort —
the sorted sequence is a permutation of the input, pairwise non-decreasing
in timestamp, and any two events in input order whose timestamps are
non-decreasing (ties in particular) keep their relative input order — and
then sweeps once: the clusters partition the sorted sequence, are all
non-empty, consecutive events inside a cluster are at most `window` apart,
the gap across a cluster boundary exceeds `window`, clusters are ordered by
start time, and empty input yields the empty cluster sequence. -/
theorem correlate_clustering (events : List Event) (w subW : Int)
    (cat : Catalog) :
    correlate [] w subW cat = []
  ∧ (sortEvents events).Perm events
  ∧ (sortEvents events).Pairwise (fun a b => a.ts ≤ b.ts)
  ∧ (∀ a b : Event, a.ts ≤ b.ts → List.Sublist [a, b] events →
      List.Sublist [a, b] (sortEvents events))
  ∧ ((correlate events w subW cat).map Cluster.events).flatten
      = sortEvents events
  ∧ (∀ cl ∈ correlate events w subW cat,
      cl.events ≠ [] ∧ cl.events.Chain' (fun a b => b.ts - a.ts ≤ w))
  ∧ (correlate events w subW cat).Chain' (fun c d =>
      ∀ a ∈ c.events.getLast?, ∀ b ∈ d.events.head?, w < b.ts - a.ts)
  ∧ (correlate events w subW cat).Chain' (fun c d =>
      ∀ a ∈ c.events.head?, ∀ b ∈ d.events.head?, a.ts ≤ b.ts) := by
  refine ⟨?_, ?_, sortEvents_pairwise events, ?_, ?_, ?_, ?_, ?_⟩
  · simp [correlate, sortEvents, List.mergeSort_nil, clusterSweep]
  · exact List.mergeSort_perm events eventLE
  · intro a b hle hsub
    exact List.pair_sublist_mergeSort eventLE_trans eventLE_total
      (by simpa [eventLE] using hle) hsub
  · rw [correlate_map_events, clusterSweep_flatten]
  · intro cl hcl
    obtain ⟨evs, hevs, rfl⟩ := List.mem_map.mp hcl
    exact ⟨clusterSweep_mem_ne_nil w (sortEvents events) evs hevs,
      clusterSweep_chain w (sortEvents events) evs hevs⟩
  · have h := clusterSweep_boundaries w (sortEvents events)
    rw [show correlate events w subW cat
        = (clusterSweep w (sortEvents events)).map
            (fun evs => { events := evs,
                          edges := cascadeEdges cat subW evs }) from rfl]
    exact (List.chain'_map _).mpr h
  · have h := clusterSweep_heads_sorted w (sortEvents events)
      (sortEvents_pairwise events)
    rw [show correlate events w subW cat
        = (clusterSweep w (sortEvents events)).map
            (fun evs => { events := evs,
                          edges := cascadeEdges cat subW evs }) from rfl]
    exact (List.chain'_map _).mpr h

/-- A small event constructor for concrete checks. -/
def demoEvent (t : Int) (sig : String) : Event :=
  { ts := t, source_type := .av, severity := .info, signal := sig,
    message := "", asset_id := none, room := none, raw_line := sig }

theorem correlate_clustering_witness :
    List.Sublist [demoEvent 10 "a", demoEvent 10 "b"]
      (sortEvents [demoEvent 10 "a", demoEvent 10 "b", demoEvent 5 "c"]) :=
  (correlate_clustering
      [demoEvent 10 "a", demoEvent 10 "b", demoEvent 5 "c"] 300 150
      ⟨[]⟩).2.2.2.1 (demoEvent 10 "a") (demoEvent 10 "b") (by decide)
    (List.Sublist.cons₂ _ (List.Sublist.cons₂ _
      (List.nil_sublist [demoEvent 5 "c"])))

/-- Membership characterization of the derived cascade-edge list. -/
theorem mem_cascadeEdges (cat : Catalog) (subW : Int) (evs : List Event)
    (p : Nat × Nat) :
    p ∈ cascadeEdges cat subW evs ↔
      p.1 < p.2 ∧ ∃ a b, evs[p.1]? = some a ∧ evs[p.2]? = some b ∧
        cascadeCond cat subW a b = true := by
  constructor
  · intro hp
    simp only [cascadeEdges, List.mem_flatMap, List.mem_map,
      List.mem_filter, List.mem_range] at hp
    obtain ⟨i, hi, j, ⟨hj, hcond⟩, hpe⟩ := hp
    subst hpe
    simp only [Bool.and_eq_true, decide_eq_true_eq] at hcond
    obtain ⟨hij, hok⟩ := hcond
    refine ⟨hij, ?_⟩
    unfold edgeOK at hok
    split at hok
    · rename_i a b ha hb
      exact ⟨a, b, ha, hb, hok⟩
    · simp at hok
  · rintro ⟨hij, a, b, ha, hb, hcond⟩
    obtain ⟨i, j⟩ := p
    simp only at hij ha hb
    have hin : i < evs.length := by
      obtain ⟨h, -⟩ := List.getElem?_eq_some_iff.mp ha
      exact h
    have hjn : j < evs.length := by
      obtain ⟨h, -⟩ := List.getElem?_eq_some_iff.mp hb
      exact h
    simp only [cascadeEdges, List.mem_flatMap, List.mem_map,
      List.mem_filter, List.mem_range]
    refine ⟨i, hin, j, ⟨hjn, ?_⟩, rfl⟩
    simp only [Bool.and_eq_true, decide_eq_true_eq]
    refine ⟨hij, ?_⟩
    unfold edgeOK
    rw [ha, hb]
    exact hcond

/-- A step relation that strictly increases a natural index admits no
transitive cycle. -/
theorem transGen_lt {r : Nat → Nat → Prop} (hr : ∀ x y, r x y → x < y) :
    ∀ i j, Relation.TransGen r i j → i < j := by
  intro i j h
  induction h with
  | single h1 => exact hr _ _ h1
  | tail _ h2 ih => exact Nat.lt_trans ih (hr _ _ h2)

/-- C7: in every cluster `correlate` produces, each cascade edge `(i, j)`
connects an earlier position to a strictly later one, with a non-negative
time gap that is at most the cascade sub-window (itself at most
`window/2`), and only when the two events share an asset/room or the
cause's signal is a known predecessor of the effect's signal in the
catalog; consequently the edge relation has no cycles. -/
theorem cascade_edges_forward_acyclic (events : List Event) (w subW : Int)
    (cat : Catalog) (hsub : subW ≤ w / 2) :
    ∀ cl ∈ correlate events w subW cat,
      (∀ p ∈ cl.edges, ∃ a b,
        cl.events[p.1]? = some a ∧ cl.events[p.2]? = some b ∧ p.1 < p.2 ∧
        0 ≤ b.ts - a.ts ∧ b.ts - a.ts ≤ subW ∧ b.ts - a.ts ≤ w / 2 ∧
        (sameAssetOrRoom a b || knownPredecessor cat a.signal b.signal)
          = true)
    ∧ (∀ i, ¬ Relation.TransGen (fun i j => (i, j) ∈ cl.edges) i i) := by
  intro cl hcl
  obtain ⟨evs, hevs, rfl⟩ := List.mem_map.mp hcl
  have hsorted : evs.Pairwise (fun a b => a.ts ≤ b.ts) :=
    List.Pairwise.sublist (clusterSweep_sublist w (sortEvents events) evs hevs)
      (sortEvents_pairwise events)
  constructor
  · intro p hp
    obtain ⟨hij, a, b, ha, hb, hcond⟩ :=
      (mem_cascadeEdges cat subW evs p).mp hp
    obtain ⟨hilt, hia⟩ := List.getElem?_eq_some_iff.mp ha
    obtain ⟨hjlt, hjb⟩ := List.getElem?_eq_some_iff.mp hb
    have hle : a.ts ≤ b.ts := by
      have := List.pairwise_iff_getElem.mp hsorted p.1 p.2 hilt hjlt hij
      rwa [hia, hjb] at this
    simp only [cascadeCond, Bool.and_eq_true, decide_eq_true_eq] at hcond
    exact ⟨a, b, ha, hb, hij, by omega, hcond.1, by omega, hcond.2⟩
  · intro i hti
    have hstep : ∀ x y,
        (x, y) ∈ cascadeEdges cat subW evs → x < y := fun x y hxy =>
      ((mem_cascadeEdges cat subW evs (x, y)).mp hxy).1
    exact absurd (transGen_lt hstep i i hti) (Nat.lt_irrefl i)

/-- Two demo events in the same room, one second apart. -/
def cascadeDemoEvents : List Event :=
  [{ ts := 0, source_type := .av, severity := .error,
     signal := "poe_power_denied", message := "PoE power denied",
     asset_id := none, room := some "r12",
     raw_line := "PoE power denied" },
   { ts := 1, source_type := .av, severity := .error,
     signal := "camera_offline", message := "camera offline",
     asset_id := none, room := some "r12",
     raw_line := "camera offline - power lost" }]

/-- The single cluster `correlate` derives from the demo events. -/
def cascadeDemoCluster : Cluster :=
  { events := cascadeDemoEvents, edges := [(0, 1)] }

theorem cascade_edges_forward_acyclic_witness :
    ¬ Relation.TransGen (fun i j => (i, j) ∈ cascadeDemoCluster.edges) 0 0 :=
  ((cascade_edges_forward_acyclic cascadeDemoEvents 300 150 ⟨[]⟩ (by decide))
      cascadeDemoCluster
      (by
        unfold correlate
        rw [show sortEvents cascadeDemoEvents = cascadeDemoEvents from
          List.mergeSort_of_sorted (by decide)]
        decide)).2 0

/-- Demotion to symptom changes neither confidence nor evidence. -/
theorem demoteIfPreceded_core (E : List (Nat × Nat)) (hs : List Hypothesis)
    (h : Hypothesis) :
    (demoteIfPreceded E hs h).confidence = h.confidence
  ∧ (demoteIfPreceded E hs h).evidence = h.evidence := by
  unfold demoteIfPreceded
  split <;> exact ⟨rfl, rfl⟩

/-- Demotion to symptom does not change the ranking key. -/
theorem hypKey_demoteIfPreceded (E : List (Nat × Nat)) (hs : List Hypothesis)
    (h : Hypothesis) : hypKey (demoteIfPreceded E hs h) = hypKey h := by
  unfold demoteIfPreceded
  split <;> rfl

/-- Downgrading a later root changes neither confidence nor evidence. -/
theorem demoteLaterRoots_core (h : Hypothesis) :
    (demoteLaterRoots h).confidence = h.confidence
  ∧ (demoteLaterRoots h).evidence = h.evidence := by
  unfold demoteLaterRoots
  split <;> exact ⟨rfl, rfl⟩

/-- Downgrading a later root does not change the ranking key. -/
theorem hypKey_demoteLaterRoots (h : Hypothesis) :
    hypKey (demoteLaterRoots h) = hypKey h := by
  unfold demoteLaterRoots
  split <;> rfl

/-- A downgraded hypothesis is never classified root cause. -/
theorem demoteLaterRoots_not_root (h : Hypothesis) :
    ¬ (demoteLaterRoots h).classification = Classification.rootCause := by
  unfold demoteLaterRoots
  split
  · simp
  · rename_i hne
    simpa using hne

/-- Every element of the single-root pass comes from an element of the
input with the same confidence, evidence and ranking key. -/
theorem markSingleRoot_mem :
    ∀ (l : List Hypothesis), ∀ h' ∈ markSingleRoot l, ∃ h ∈ l,
      h'.confidence = h.confidence ∧ h'.evidence = h.evidence ∧
      hypKey h' = hypKey h := by
  intro l
  induction l with
  | nil => simp [markSingleRoot]
  | cons h t ih =>
    intro h' hh'
    by_cases hc : h.classification = Classification.rootCause
    · rw [markSingleRoot, if_pos hc] at hh'
      rcases List.mem_cons.mp hh' with rfl | hm
      · exact ⟨h', List.mem_cons_self _ _, rfl, rfl, rfl⟩
      · obtain ⟨h0, hh0, rfl⟩ := List.mem_map.mp hm
        exact ⟨h0, List.mem_cons_of_mem _ hh0, (demoteLaterRoots_core h0).1,
          (demoteLaterRoots_core h0).2, hypKey_demoteLaterRoots h0⟩
    · rw [markSingleRoot, if_neg hc] at hh'
      rcases List.mem_cons.mp hh' with rfl | hm
      · exact ⟨h', List.mem_cons_self _ _, rfl, rfl, rfl⟩
      · obtain ⟨h0, hh0, hcore⟩ := ih h' hm
        exact ⟨h0, List.mem_cons_of_mem _ hh0, hcore⟩

/-- The single-root pass preserves sortedness by the ranking key. -/
theorem markSingleRoot_pairwise {l : List Hypothesis}
    (hl : l.Pairwise (fun a b => hypKey a ≤ hypKey b)) :
    (markSingleRoot l).Pairwise (fun a b => hypKey a ≤ hypKey b) := by
  induction l with
  | nil => simp [markSingleRoot]
  | cons h t ih =>
    obtain ⟨hhd, htl⟩ := List.pairwise_cons.mp hl
    by_cases hc : h.classification = Classification.rootCause
    · rw [markSingleRoot, if_pos hc]
      refine List.pairwise_cons.mpr ⟨?_, ?_⟩
      · intro b hb
        obtain ⟨b0, hb0, rfl⟩ := List.mem_map.mp hb
        rw [hypKey_demoteLaterRoots]
        exact hhd b0 hb0
      · exact htl.map _ (fun a b hab => by
          rwa [hypKey_demoteLaterRoots, hypKey_demoteLaterRoots])
    · rw [markSingleRoot, if_neg hc]
      refine List.pairwise_cons.mpr ⟨?_, ih htl⟩
      intro b hb
      obtain ⟨b0, hb0, -, -, hkey⟩ := markSingleRoot_mem t b hb
      rw [hkey]
      exact hhd b0 hb0

/-- After the single-root pass at most one hypothesis is classified root
cause. -/
theorem markSingleRoot_countP_le_one (l : List Hypothesis) :
    (markSingleRoot l).countP
      (fun h => h.classification == Classification.rootCause) ≤ 1 := by
  induction l with
  | nil => simp [markSingleRoot]
  | cons h t ih =>
    by_cases hc : h.classification = Classification.rootCause
    · rw [markSingleRoot, if_pos hc,
        List.countP_cons_of_pos _ _ (by simp [hc])]
      have hz : (t.map demoteLaterRoots).countP
          (fun h => h.classification == Classification.rootCause) = 0 := by
        rw [List.countP_eq_zero]
        intro b hb
        obtain ⟨b0, hb0, rfl⟩ := List.mem_map.mp hb
        simpa using demoteLaterRoots_not_root b0
      omega
    · rw [markSingleRoot, if_neg hc,
        List.countP_cons_of_neg _ _ (by simp [hc])]
      exact ih

/-- The top-N cap keeps a sublist of its input. -/
theorem capSecondaries_sublist (n : Nat) (l : List Hypothesis) :
    List.Sublist (capSecondaries n l) l := by
  induction l generalizing n with
  | nil => simp [capSecondaries]
  | cons h t ih =>
    by_cases hc : h.classification = Classification.rootCause
    · rw [capSecondaries, if_pos hc]
      exact List.Sublist.cons₂ _ (ih n)
    · rw [capSecondaries, if_neg hc]
      cases n with
      | zero => simpa using List.Sublist.cons _ (ih 0)
      | succ m =>
        rw [if_neg (Nat.succ_ne_zero m)]
        exact List.Sublist.cons₂ _ (ih (m + 1 - 1))

/-- The top-N cap keeps at most `n` secondary (non-root-cause)
hypotheses. -/
theorem capSecondaries_countP_le (n : Nat) (l : List Hypothesis) :
    (capSecondaries n l).countP
      (fun h => !(h.classification == Classification.rootCause)) ≤ n := by
  induction l generalizing n with
  | nil => simp [capSecondaries]
  | cons h t ih =>
    by_cases hc : h.classification = Classification.rootCause
    · rw [capSecondaries, if_pos hc,
        List.countP_cons_of_neg _ _ (by simp [hc])]
      exact ih n
    · rw [capSecondaries, if_neg hc]
      cases n with
      | zero => simpa using ih 0
      | succ m =>
        rw [if_neg (Nat.succ_ne_zero m),
          List.countP_cons_of_pos _ _ (by simp [hc])]
        have := ih (m + 1 - 1)
        omega

/-- C3: after the demotion step, `rank` returns at most one hypothesis
classified root cause, at most the configured top-N secondary hypotheses,
and the default top-N is 5. -/
theorem rank_single_root_top_cap (cl : Cluster) (cat : Catalog)
    (cfg : RankConfig) :
    (rank cl cat cfg).countP
      (fun h => h.classification == Classification.rootCause) ≤ 1
  ∧ (rank cl cat cfg).countP
      (fun h => !(h.classification == Classification.rootCause)) ≤ cfg.topN
  ∧ ({} : RankConfig).topN = 5 := by
  refine ⟨?_, ?_, rfl⟩
  · unfold rank
    refine le_trans (List.Sublist.countP_le _
      (capSecondaries_sublist _ _)) ?_
    refine le_trans (List.Sublist.countP_le _ (List.filter_sublist _)) ?_
    exact markSingleRoot_countP_le_one _
  · unfold rank
    exact capSecondaries_countP_le _ _

/-- The clamp really lands in the unit interval. -/
theorem clampUnit_bounds (q : ℚ) : 0 ≤ clampUnit q ∧ clampUnit q ≤ 1 := by
  unfold clampUnit
  constructor
  · exact le_min (by norm_num) (le_max_left 0 q)
  · exact min_le_left 1 _

/-- Every draft hypothesis has confidence in `[0, 1]`, a non-empty evidence
list, and only verbatim raw lines of the cluster's events as evidence. -/
theorem draftHypotheses_good (cl : Cluster) (cat : Catalog) (subW : Int) :
    ∀ h ∈ draftHypotheses cl cat subW,
      0 ≤ h.confidence ∧ h.confidence ≤ 1 ∧ h.evidence ≠ [] ∧
      ∀ ln ∈ h.evidence, ln ∈ cl.events.map Event.raw_line := by
  intro h hh
  unfold draftHypotheses at hh
  simp only [List.append_assoc, List.mem_append] at hh
  rcases hh with hp | hc | hch
  · obtain ⟨p, hpmem, hpd⟩ := List.mem_filterMap.mp hp
    unfold patternDraft at hpd
    split at hpd
    · rename_i happ
      simp only [Option.some.injEq] at hpd
      subst hpd
      simp only [patternApplies, Bool.and_eq_true, Bool.not_eq_true',
        List.isEmpty_eq_false, List.all_eq_true] at happ
      obtain ⟨hne, hall⟩ := happ
      obtain ⟨s, hs⟩ := List.exists_mem_of_ne_nil _ hne
      have hany := hall s hs
      simp only [List.any_eq_true] at hany
      obtain ⟨e, he, heq⟩ := hany
      have hem : e ∈ patternMatchedEvents cl.events p := by
        unfold patternMatchedEvents
        refine List.mem_filter.mpr ⟨he, ?_⟩
        unfold matchesSymptomOf
        simp only [List.any_eq_true]
        exact ⟨s, hs, heq⟩
      refine ⟨by norm_num, by norm_num, ?_, ?_⟩
      · exact List.ne_nil_of_mem (List.mem_map.mpr ⟨e, hem, rfl⟩)
      · intro ln hln
        obtain ⟨e', he', rfl⟩ := List.mem_map.mp hln
        exact List.mem_map.mpr
          ⟨e', (List.mem_filter.mp he').1, rfl⟩
    · exact absurd hpd (by simp)
  · rw [Option.mem_toList] at hc
    unfold cascadeDraft at hc
    split at hc
    · exact Option.noConfusion hc
    · rename_i i hpick
      split at hc
      · exact Option.noConfusion hc
      · rename_i root hroot
        simp only [Option.mem_def, Option.some.injEq] at hc
        subst hc
        refine ⟨(clampUnit_bounds _).1, (clampUnit_bounds _).2, by simp, ?_⟩
        intro ln hln
        rcases List.mem_cons.mp hln with rfl | hln'
        · exact List.mem_map.mpr ⟨root, List.getElem?_mem hroot, rfl⟩
        · obtain ⟨e', he', rfl⟩ := List.mem_map.mp hln'
          unfold effectsOf at he'
          obtain ⟨x, -, hx⟩ := List.mem_filterMap.mp he'
          exact List.mem_map.mpr ⟨e', List.getElem?_mem hx, rfl⟩
  · obtain ⟨e, he, rfl⟩ := List.mem_map.mp hch
    have hee : e ∈ cl.events := by
      unfold precedingChanges at he
      split at he
      · exact absurd he (List.not_mem_nil e)
      · exact (List.mem_filter.mp he).1
    refine ⟨?_, ?_, by simp [changeDraft], ?_⟩
    · show (0 : ℚ) ≤ 11 / 20
      norm_num
    · show (11 : ℚ) / 20 ≤ 1
      norm_num
    · intro ln hln
      simp only [changeDraft, List.mem_singleton] at hln
      subst hln
      exact List.mem_map.mpr ⟨e, hee, rfl⟩

/-- Every ranked hypothesis traces back to a draft with the same confidence
and evidence. -/
theorem rank_mem_from_draft (cl : Cluster) (cat : Catalog) (cfg : RankConfig) :
    ∀ h ∈ rank cl cat cfg, ∃ h0 ∈ draftHypotheses cl cat cfg.subWindow,
      h.confidence = h0.confidence ∧ h.evidence = h0.evidence := by
  intro h hh
  unfold rank at hh
  have hh1 := (capSecondaries_sublist _ _).subset hh
  have hh2 := (List.mem_filter.mp hh1).1
  obtain ⟨h1, hh3, hconf1, hev1, -⟩ := markSingleRoot_mem _ h hh2
  unfold demoteSymptoms at hh3
  obtain ⟨h2, hh4, rfl⟩ := List.mem_map.mp hh3
  rw [List.mem_mergeSort] at hh4
  refine ⟨h2, hh4, ?_, ?_⟩
  · rw [hconf1, (demoteIfPreceded_core _ _ _).1]
  · rw [hev1, (demoteIfPreceded_core _ _ _).2]

/-- C2: every hypothesis `rank` returns has confidence within `[0, 1]`, and
whenever its confidence is strictly positive its evidence list is non-empty
and every evidence entry is a verbatim raw line of the cluster's events
(nothing fabricated). -/
theorem rank_confidence_evidence (cl : Cluster) (cat : Catalog)
    (cfg : RankConfig) :
    ∀ h ∈ rank cl cat cfg,
      0 ≤ h.confidence ∧ h.confidence ≤ 1 ∧
      (0 < h.confidence → h.evidence ≠ [] ∧
        ∀ ln ∈ h.evidence, ln ∈ cl.events.map Event.raw_line) := by
  intro h hh
  obtain ⟨h0, hh0, hconf, hev⟩ := rank_mem_from_draft cl cat cfg h hh
  obtain ⟨hc0, hc1, hne, hmem⟩ := draftHypotheses_good cl cat cfg.subWindow
    h0 hh0
  rw [hconf, hev]
  exact ⟨hc0, hc1, fun _ => ⟨hne, hmem⟩⟩

/-- A demo cluster whose single event matches the demo catalog's single
pattern. -/
def rankDemoCluster : Cluster :=
  { events := [{ ts := 0, source_type := .network, severity := .info,
                 signal := "dhcp_exhausted", message := "pool exhausted",
                 asset_id := none, room := some "r12",
                 raw_line := "DHCP pool utilization: 98%" }],
    edges := [] }

/-- A catalog with one pattern whose only symptom is the demo signal. -/
def rankDemoCatalog : Catalog :=
  ⟨[{ pattern_id := "DHCP-EXHAUSTION", name := "dhcp exhaustion",
      symptoms := ["dhcp_exhausted"],
      typical_root_cause := "DHCP pool exhaustion",
      recommended_actions := ["expand pool"] }]⟩

/-- The hypothesis `rank` produces on the demo cluster. -/
def rankDemoHyp : Hypothesis :=
  { description := "DHCP pool exhaustion", confidence := 85 / 100,
    evidence := ["DHCP pool utilization: 98%"],
    classification := .rootCause,
    matched_pattern := some "DHCP-EXHAUSTION", root_idx := some 0,
    first_ts := 0, actions := ["expand pool"] }

/-- The demo rank run evaluates to exactly the demo hypothesis. -/
theorem rank_demo_eval :
    rank rankDemoCluster rankDemoCatalog {} = [rankDemoHyp] := by
  unfold rank
  rw [show draftHypotheses rankDemoCluster rankDemoCatalog
      ({} : RankConfig).subWindow = [rankDemoHyp] from rfl]
  rw [List.mergeSort_singleton]
  rw [show demoteSymptoms rankDemoCluster.edges [rankDemoHyp] = [rankDemoHyp]
      from rfl]
  rw [show markSingleRoot [rankDemoHyp] = [rankDemoHyp] from rfl]
  rw [List.filter_cons_of_pos (by
    rw [decide_eq_true_eq]
    show (1 : ℚ) / 2 ≤ 85 / 100
    norm_num)]
  rw [List.filter_nil]
  rfl

theorem rank_confidence_evidence_witness :
    0 ≤ rankDemoHyp.confidence ∧ rankDemoHyp.confidence ≤ 1 ∧
    (0 < rankDemoHyp.confidence → rankDemoHyp.evidence ≠ [] ∧
      ∀ ln ∈ rankDemoHyp.evidence,
        ln ∈ rankDemoCluster.events.map Event.raw_line) :=
  rank_confidence_evidence rankDemoCluster rankDemoCatalog {} rankDemoHyp
    (by rw [rank_demo_eval]; exact List.mem_singleton.mpr rfl)

/-- The ranking comparison is transitive. -/
theorem hypLE_trans : ∀ a b c : Hypothesis,
    hypLE a b → hypLE b c → hypLE a c := by
  intro a b c hab hbc
  simp only [hypLE, decide_eq_true_eq] at *
  exact le_trans hab hbc

/-- The ranking comparison is total. -/
theorem hypLE_total : ∀ a b : Hypothesis, hypLE a b || hypLE b a := by
  intro a b
  simp only [hypLE, Bool.or_eq_true, decide_eq_true_eq]
  exact le_total _ _

/-- Unfolding of the lexicographic ranking key: highest confidence first,
then more evidence lines, then earlier first timestamp, then lexical
description order. -/
theorem hypKey_le_iff (a b : Hypothesis) :
    hypKey a ≤ hypKey b ↔
      (b.confidence < a.confidence ∨ (a.confidence = b.confidence ∧
        (b.evidence.length < a.evidence.length ∨
          (a.evidence.length = b.evidence.length ∧
            (a.first_ts < b.first_ts ∨ (a.first_ts = b.first_ts ∧
              a.description ≤ b.description)))))) := by
  unfold hypKey
  simp only [Prod.Lex.le_iff, neg_lt_neg_iff, neg_inj, Nat.cast_lt,
    Nat.cast_inj, Prod.Lex.lt_iff]

/-- The ranked output is pairwise sorted by the ranking key throughout all
of `rank`'s passes. -/
theorem rank_pairwise_key (cl : Cluster) (cat : Catalog) (cfg : RankConfig) :
    (rank cl cat cfg).Pairwise (fun a b => hypKey a ≤ hypKey b) := by
  have h0 : ((draftHypotheses cl cat cfg.subWindow).mergeSort
      hypLE).Pairwise (fun a b => hypKey a ≤ hypKey b) :=
    (List.sorted_mergeSort hypLE_trans hypLE_total _).imp
      (fun hab => by simpa only [hypLE, decide_eq_true_eq] using hab)
  have h1 : (demoteSymptoms cl.edges ((draftHypotheses cl cat
      cfg.subWindow).mergeSort hypLE)).Pairwise
        (fun a b => hypKey a ≤ hypKey b) :=
    h0.map _ (fun a b hab => by
      rwa [hypKey_demoteIfPreceded, hypKey_demoteIfPreceded])
  have h2 := markSingleRoot_pairwise h1
  unfold rank
  exact List.Pairwise.sublist (capSecondaries_sublist _ _)
    (List.Pairwise.sublist (List.filter_sublist _) h2)

/-- C6: `rank` returns hypotheses ordered by decreasing confidence, with
equal confidence broken first by more evidence lines, then by earlier
first-occurrence timestamp, then by lexical order of the description, so
the output order is a fixed total order of the drafts (deterministic). -/
theorem rank_ordered_deterministic (cl : Cluster) (cat : Catalog)
    (cfg : RankConfig) :
    (rank cl cat cfg).Pairwise (fun a b =>
      b.confidence < a.confidence ∨ (a.confidence = b.confidence ∧
        (b.evidence.length < a.evidence.length ∨
          (a.evidence.length = b.evidence.length ∧
            (a.first_ts < b.first_ts ∨ (a.first_ts = b.first_ts ∧
              a.description ≤ b.description)))))) :=
  (rank_pairwise_key cl cat cfg).imp (fun hab => (hypKey_le_iff _ _).mp hab)

end AVAgent
